import Mathlib

/-!
Verification development for the audio-processing directory-organization
system (`main_orchastrator.py`, `ai_naming_agent.py`, `directory_analyzer.py`).

The Python sources are shallowly embedded: pure functions become Lean
functions; the interactive negotiation loop becomes a recursive function
over the list of user decisions; fallible effects (the external generation
call, filesystem moves, log appends) are passed in as explicit
`Except`/oracle parameters.  Machine details that no claim depends on
(floating-point size formatting) are modelled by deterministic integer
approximations, noted at the definition site.
-/

namespace AIOrg

/-! ## Character helpers (ASCII, as used by the Python regexes) -/

/-- `[a-z]` of the pattern in `validate_directory_name` (codes 97-122). -/
def isAsciiLower (c : Char) : Bool :=
  97 ≤ c.toNat && c.toNat ≤ 122

/-- `[a-zA-Z0-9]` of the pattern in `validate_directory_name`. -/
def isAsciiAlnum (c : Char) : Bool :=
  (97 ≤ c.toNat && c.toNat ≤ 122) || (65 ≤ c.toNat && c.toNat ≤ 90) ||
    (48 ≤ c.toNat && c.toNat ≤ 57)

/-- ASCII digit test (codes 48-57), used to reason about date strings. -/
def isAsciiDigit (c : Char) : Bool :=
  48 ≤ c.toNat && c.toNat ≤ 57

/-- ASCII lower-casing of one character (`str.lower()` restricted to the
ASCII range; the routing keywords are all ASCII). -/
def asciiLowerChar (c : Char) : Char :=
  if 65 ≤ c.toNat && c.toNat ≤ 90 then Char.ofNat (c.toNat + 32) else c

/-- `str.lower()` on an ASCII string. -/
def asciiLower (s : String) : String :=
  ⟨s.data.map asciiLowerChar⟩

/-- Whitespace as stripped by Python's `str.strip()` (ASCII part). -/
def pyIsSpace (c : Char) : Bool :=
  c == ' ' || c == '\t' || c == '\n' || c == '\r' ||
    c == Char.ofNat 11 || c == Char.ofNat 12

/-- Python `str.strip()`: drop leading and trailing whitespace. -/
def pyStrip (s : String) : String :=
  ⟨((s.data.dropWhile pyIsSpace).reverse.dropWhile pyIsSpace).reverse⟩

/-- Python `s.replace("\\", "/")` (single-character replacement). -/
def replaceBackslashes (s : String) : String :=
  ⟨s.data.map (fun c => if c = '\\' then '/' else c)⟩

/-- `s.startswith("/")`. -/
def startsWithSlash (s : String) : Bool :=
  match s.data with
  | '/' :: _ => true
  | _ => false

/-- `s.endswith("/")`. -/
def endsWithSlash (s : String) : Bool :=
  match s.data.getLast? with
  | some '/' => true
  | _ => false

/-! ## Decimal rendering

Python renders the conflict counter with `f"{counter}"` and the date with
`strftime`; both print the decimal digits of a nonnegative integer.  We
embed decimal rendering directly so that its injectivity can be proved. -/

/-- One decimal digit as a character (`0 ≤ d ≤ 9`; other inputs are never
produced by `n % 10`). -/
def digitChar10 : Nat → Char
  | 0 => '0' | 1 => '1' | 2 => '2' | 3 => '3' | 4 => '4'
  | 5 => '5' | 6 => '6' | 7 => '7' | 8 => '8' | 9 => '9'
  | _ => '*'

/-- Little-endian decimal digits of `n` (empty for `0`). -/
def decDigitsLE : Nat → List Char
  | 0 => []
  | n + 1 => digitChar10 ((n + 1) % 10) :: decDigitsLE ((n + 1) / 10)
decreasing_by exact Nat.div_lt_self (Nat.succ_pos n) (by omega)

/-- Decimal rendering of a natural number, as Python's `str`/format does. -/
def decRepr (n : Nat) : String :=
  if n = 0 then "0" else ⟨(decDigitsLE n).reverse⟩

/-- Value of one (rendered) digit character. -/
def digitVal (c : Char) : Nat := c.toNat - 48

/-- Big-endian decimal parse, inverse of `decRepr` on its image. -/
def decParse (s : String) : Nat :=
  s.data.foldl (fun a c => 10 * a + digitVal c) 0

/-- Left pad with `'0'` to width `w` (`strftime` zero padding). -/
def zfill (w : Nat) (s : String) : String :=
  ⟨List.replicate (w - s.length) '0'⟩ ++ s

/-- A calendar date as used by `datetime.now().strftime("%Y%m%d")`. -/
structure Date where
  year : Nat
  month : Nat
  day : Nat

/-- `strftime("%Y%m%d")`: zero-padded year (4), month (2), day (2). -/
def strftimeYMD (d : Date) : String :=
  zfill 4 (decRepr d.year) ++ zfill 2 (decRepr d.month) ++ zfill 2 (decRepr d.day)

/-! ## `ai_naming_agent.validate_directory_name`

```python
def validate_directory_name(self, name: str) -> bool:
    if len(name) > 75:
        return False
    if not re.match(r'^[a-z][a-zA-Z0-9]*$', name):
        return False
    return True
```

Python's `re` gives `$` (without `re.MULTILINE`) the semantics "end of
string, or just before a newline at the end of the string", so the embedded
matcher accepts an optional single trailing `'\n'` after the alphanumeric
run. -/

/-- Matcher for the tail `[a-zA-Z0-9]*$` under Python `$` semantics:
a run of alphanumerics optionally followed by one final newline ("just
before a newline at the end of the string"). -/
def pyTailMatch : List Char → Bool
  | [] => true
  | [c] => c == '\n' || isAsciiAlnum c
  | c :: d :: rest => isAsciiAlnum c && pyTailMatch (d :: rest)

/-- `re.match(r'^[a-z][a-zA-Z0-9]*$', name)` viewed as a boolean. -/
def pyNamePatternMatch (name : String) : Bool :=
  match name.data with
  | [] => false
  | c :: rest => isAsciiLower c && pyTailMatch rest

/-- Embedding of `DirectoryNamingAgent.validate_directory_name`. -/
def validate_directory_name (name : String) : Bool :=
  if name.length > 75 then false
  else if !pyNamePatternMatch name then false
  else true

/-- The spec's reading of the pattern: first character a lowercase letter,
remainder alphanumeric only (mathematical `^...$`, no newline allowance). -/
def specNameMatch (name : String) : Bool :=
  match name.data with
  | [] => false
  | c :: rest => isAsciiLower c && rest.all isAsciiAlnum

/-! ## `ai_naming_agent` fallback naming and generation

```python
def create_fallback_name(self, analysis_data: Dict) -> str:
    timestamp = datetime.now().strftime("%Y%m%d")
    return f"processedAudio{timestamp}"
```

`generate_directory_name` / `generate_directory_name_with_feedback` differ
only in the prompt they build; their control flow on the reply is
identical and is what we embed.  The external call is modelled by an
optional outcome: `none` = no client configured (`self.client is None`);
`some (.error e)` = the call (or reply extraction) raised; `some (.ok raw)`
= the reply text.  The current date is passed explicitly. -/

/-- Embedding of `DirectoryNamingAgent.create_fallback_name`. -/
def create_fallback_name (today : Date) : String :=
  "processedAudio" ++ strftimeYMD today

/-- Embedding of `DirectoryNamingAgent.generate_directory_name` (and of
`generate_directory_name_with_feedback`, which has the same control flow on
the reply): no client, a raised transport error, or an invalid reply all
fall back to `create_fallback_name`; a valid trimmed reply is returned. -/
def generate_directory_name (call : Option (Except String String))
    (today : Date) : String :=
  match call with
  | none => create_fallback_name today
  | some (Except.error _) => create_fallback_name today
  | some (Except.ok raw) =>
      let generated := pyStrip raw
      if validate_directory_name generated then generated
      else create_fallback_name today

/-! ## `ai_naming_agent.determine_optimal_parent_directory` -/

/-- Python `needle in hay` substring test. -/
def containsSub (needle hay : String) : Bool :=
  containsSubAux needle.data hay.data
where
  containsSubAux (nd : List Char) : List Char → Bool
    | [] => nd.isPrefixOf []
    | c :: t => nd.isPrefixOf (c :: t) || containsSubAux nd t

/-- `os.path.join(a, b)` for POSIX paths with a single component `b`. -/
def osPathJoin (a b : String) : String :=
  if startsWithSlash b then b
  else if a = "" || endsWithSlash a then a ++ b
  else a ++ "/" ++ b

/-- Leading run of `[a-z]` characters, i.e. the group captured by
`re.match(r'^([a-z]+)', directory_name)` (empty string = no match). -/
def leadingLowerRun (s : String) : String :=
  ⟨s.data.takeWhile (fun c => isAsciiLower c)⟩

/-- `self.data_home_mapping`: content type → (primary path, context
mappings in insertion order), copied from the source. -/
def data_home_mapping : List (String × String × List (String × String)) :=
  [ ("aud", "audio",
     [ ("book", "audio/books"),
       ("mus", "audio/music"),
       ("pod", "audio/podcasts"),
       ("rec", "audio/recordings"),
       ("game", "audio/soundtracks/games"),
       ("mov", "audio/soundtracks/movies"),
       ("show", "audio/soundtracks/television") ]),
    ("trans", "documents/Text Documents",
     [ ("mtg", "documents/professional"),
       ("intv", "documents/professional"),
       ("res", "documents/professional"),
       ("pers", "documents/personal"),
       ("fin", "documents/personal/financial"),
       ("med", "documents/personal/medical"),
       ("news", "documents/Text Documents") ]),
    ("doc", "documents",
     [ ("tmpl", "documents/_templates"),
       ("contr", "documents/professional/contracts"),
       ("cert", "documents/professional/certifications"),
       ("corr", "documents/professional/correspondence"),
       ("upw", "documents/professional/upwork"),
       ("strat", "documents/professional/strategicAgent"),
       ("pol", "documents/professional/StrategyPolitics"),
       ("fin", "documents/personal/financial"),
       ("med", "documents/personal/medical"),
       ("id", "documents/personal/identity") ]),
    ("code", "software",
     [ ("exp", "software/development/experiments"),
       ("lib", "software/development/libraries"),
       ("tool", "software/development/tools"),
       ("cfg", "software/configurations") ]),
    ("media", "images",
     [ ("vid", "video"),
       ("img", "images"),
       ("chart", "images/charts"),
       ("screenshot", "images/screenshots") ]),
    ("arch", "archives",
     [ ("bkup", "archives/backups"),
       ("dump", "archives/dumps"),
       ("news", "archives/news"),
       ("sci", "archives/scientific"),
       ("data", "archives/datasets") ]) ]

/-- First context mapping whose abbreviation occurs as a substring of the
lowercased name (the `for context_abbrev, context_path in ...` loop). -/
def firstContextMatch (lowerName : String) :
    List (String × String) → Option String
  | [] => none
  | (abbrev₀, path₀) :: rest =>
      if containsSub abbrev₀ lowerName then some path₀
      else firstContextMatch lowerName rest

/-- Embedding of `DirectoryNamingAgent.determine_optimal_parent_directory`.
`sourcePath = none` models Python `source_path=None`; the `if source_path:`
truthiness check also rejects the empty string. -/
def determine_optimal_parent_directory (directory_name : String)
    (data_home_root : String) (sourcePath : Option String) : String :=
  let overridden : Bool :=
    match sourcePath with
    | none => false
    | some sp =>
        if sp = "" then false
        else
          let normalized := replaceBackslashes sp
          containsSub "News/transcripts" normalized ||
            containsSub "/News/transcripts" normalized
  if overridden then
    osPathJoin data_home_root "filetree/roots/documents/Text Documents"
  else
    let content_type := leadingLowerRun directory_name
    if content_type = "" then
      osPathJoin data_home_root "filetree/roots/documents"
    else
      match data_home_mapping.find? (fun m => m.1 == content_type) with
      | none => osPathJoin data_home_root "filetree/roots/documents"
      | some (_, primary, contexts) =>
          match firstContextMatch (asciiLower directory_name) contexts with
          | some contextPath =>
              osPathJoin (osPathJoin data_home_root "filetree/roots") contextPath
          | none =>
              osPathJoin (osPathJoin data_home_root "filetree/roots") primary

/-! ## `directory_analyzer.DirectoryAnalyzer`

The filesystem is explicit data: a directory is a list of named entries in
OS listing order (the order `iterdir`/`scandir` reports), a file carries
its byte size, its text content, and two flags for the two distinct
failure points of the source (`stat()` raising in `create_file_tree`, and
`open()` raising in `extract_text_snippets`).  `deniedDir` is a directory
whose listing raises `PermissionError`. -/

inductive FSTree where
  | file (size : Nat) (content : String) (statOk : Bool) (openOk : Bool)
  | dir (entries : List (String × FSTree))
  | deniedDir

/-- `item.is_file()` for a listed entry. -/
def FSTree.isFileB : FSTree → Bool
  | .file .. => true
  | _ => false

/-- `pathlib.PurePath.suffix` of a file name: the final `.ext` part, empty
when there is no dot, the name starts with its only dot, or it ends with a
dot. -/
def pathSuffix (name : String) : String :=
  match (name.data.reverse.takeWhile (fun c => c ≠ '.')) with
  | rest =>
      let stemLen := name.length - rest.length
      if rest.length = name.length then ""        -- no dot at all
      else if stemLen ≤ 1 then ""                 -- only leading dot
      else if rest.length = 0 then ""             -- trailing dot
      else ⟨'.' :: rest.reverse⟩

/-- `DirectoryAnalyzer.format_file_size`.  The source formats
`size_bytes / 1024.0**i` with `"{:.1f}"` (binary64 floats); we render the
same quantity in tenths with integer division.  Every claim that touches
this function only needs it to be a deterministic function of the size. -/
def format_file_size (size : Nat) : String :=
  formatAux size ["B", "KB", "MB", "GB"]
where
  tenthsRepr (tenths : Nat) : String :=
    decRepr (tenths / 10) ++ "." ++ decRepr (tenths % 10)
  formatAux (sz : Nat) : List String → String
    | [] => tenthsRepr (sz * 10 / 1024) ++ "TB"
    | u :: us => if sz < 1024 then tenthsRepr (sz * 10) ++ u else formatAux (sz / 1024) us

/-- Sort key order of `sorted(path.iterdir(), key=lambda x: (x.is_file(), x.name.lower()))`:
directories (`is_file = False`) before files, then case-folded name. -/
def entryLeB (a b : String × FSTree) : Bool :=
  (!a.2.isFileB && b.2.isFileB) ||
    (a.2.isFileB == b.2.isFileB && decide (asciiLower a.1 ≤ asciiLower b.1))

/-- Output of `create_file_tree`: the nested JSON-like dict. -/
inductive TreeOut where
  | leaf (descr : String)
  | node (entries : List (String × TreeOut))

/-- Descriptor string of one file entry in the tree
(`f"{size_str} | {item.suffix or 'no_ext'}"`, or `"unknown_size"` when
`stat()` raises). -/
def fileDescr (name : String) (size : Nat) (statOk : Bool) : String :=
  if statOk then
    format_file_size size ++ " | " ++
      (if pathSuffix name = "" then "no_ext" else pathSuffix name)
  else "unknown_size"

/-- `build_tree` of `DirectoryAnalyzer.create_file_tree`, with fuel
`4 - current_depth`: the source emits the `max_depth_reached` marker
exactly when `current_depth > 3`.  Calling it on a plain file would raise
`NotADirectoryError` in Python; the orchestrator only ever passes a
directory, and the model returns a marker leaf there. -/
def buildTree : Nat → FSTree → TreeOut
  | 0, _ => .node [("...", .leaf "max_depth_reached")]
  | _ + 1, .file .. => .leaf "not_a_directory"
  | _ + 1, .deniedDir => .node [("[ACCESS_DENIED]", .leaf "permission_error")]
  | fuel + 1, .dir entries =>
      .node ((entries.mergeSort entryLeB).map (fun e =>
        match e with
        | (n, .file sz _ st _) => (n, .leaf (fileDescr n sz st))
        | (n, child) => (n ++ "/", buildTree fuel child)))

/-- Embedding of `DirectoryAnalyzer.create_file_tree` (`max_depth = 3`). -/
def create_file_tree (t : FSTree) : TreeOut :=
  buildTree 4 t

/- `directory.rglob('*')`: every descendant (files and directories) with
its path relative to the root, in depth-first listing order; listing a
permission-denied directory yields nothing below it (glob suppresses the
error). -/
mutual
def rglobTree : FSTree → List (String × FSTree)
  | .file .. => []
  | .deniedDir => []
  | .dir entries => rglobEntries entries

def rglobEntries : List (String × FSTree) → List (String × FSTree)
  | [] => []
  | (n, c) :: rest =>
      (n, c) :: ((rglobTree c).map (fun p => (n ++ "/" ++ p.1, p.2)) ++ rglobEntries rest)
end

/-- Final path component of a relative path string. -/
def baseName (p : String) : String :=
  ⟨(p.data.reverse.takeWhile (fun c => c ≠ '/')).reverse⟩

/-- `self.readable_extensions`. -/
def readable_extensions : List String :=
  [".txt", ".md", ".py", ".js", ".html", ".css", ".json", ".xml",
   ".yaml", ".yml", ".cfg", ".ini", ".log", ".csv", ".tsv"]

/-- Last `n` characters of a string (Python `s[-n:]`). -/
def strTakeRight (s : String) (n : Nat) : String :=
  ⟨s.data.drop (s.data.length - n)⟩

/-- Snippet of one file's content (`max_snippet_length = 500`,
`lines_to_extract = 10`), tagged with which end it came from. -/
def fileSnippet (content : String) (extractFromEnd : Bool) : String :=
  let lines := content.splitOn "\n"
  if extractFromEnd then
    let relevant := if lines.length > 10 then lines.drop (lines.length - 10) else lines
    "[end] " ++ strTakeRight (String.intercalate "\n" relevant) 500
  else
    "[beginning] " ++ (String.intercalate "\n" (lines.take 10)).take 500

/-- The `for file_path in directory.rglob('*')` loop of
`extract_text_snippets`: cap of 25 analyzed files, extension allow-list,
unreadable files skipped without counting. -/
def snippetLoop (extractFromEnd : Bool) :
    List (String × FSTree) → Nat → List (String × String)
  | [], _ => []
  | (p, node) :: rest, count =>
      if count ≥ 25 then []
      else
        match node with
        | .file _ content _ openOk =>
            if readable_extensions.contains (asciiLower (pathSuffix (baseName p))) then
              if openOk then
                (p, fileSnippet content extractFromEnd) :: snippetLoop extractFromEnd rest (count + 1)
              else snippetLoop extractFromEnd rest count
            else snippetLoop extractFromEnd rest count
        | _ => snippetLoop extractFromEnd rest count

/-- Embedding of `DirectoryAnalyzer.extract_text_snippets`. -/
def extract_text_snippets (t : FSTree) (extractFromEnd : Bool) :
    List (String × String) :=
  snippetLoop extractFromEnd (rglobTree t) 0

/-- The payload built by `DirectoryAnalyzer.create_analysis_payload`. -/
structure AnalysisPayload where
  directory_path : String
  file_tree : TreeOut
  text_snippets : List (String × String)
  total_files_analyzed : Nat
  max_depth : Nat
  snippet_max_length : Nat
  lines_extracted : Nat
  extraction_type : String

/-- Embedding of `DirectoryAnalyzer.create_analysis_payload`. -/
def create_analysis_payload (t : FSTree) (directoryPath : String)
    (extractFromEnd : Bool) : AnalysisPayload :=
  let snippets := extract_text_snippets t extractFromEnd
  { directory_path := directoryPath
    file_tree := create_file_tree t
    text_snippets := snippets
    total_files_analyzed := snippets.length
    max_depth := 3
    snippet_max_length := 500
    lines_extracted := 10
    extraction_type := if extractFromEnd then "end_of_files" else "beginning_of_files" }

/-! ## Conflict resolution (`main_orchastrator.main`, both branches)

```python
counter = 1
original_new_name = new_directory_name
temp_final_path = final_path
while temp_final_path.exists():
    conflict_name = f"{original_new_name}{counter}"
    temp_final_path = Path(optimal_parent_path) / conflict_name
    counter += 1
```

Existing sibling paths are an explicit list; `pathlib`'s `/` with a
normalized parent and a relative, non-empty name is plain
`parent + "/" + name`. -/

/-- `Path(parent) / name` for a relative component. -/
def childPath (parent name : String) : String :=
  parent ++ "/" ++ name

/-- The `counter`-th candidate of the probe: the bare name first, then
`name1`, `name2`, ... -/
def conflictCandidate (parent base : String) (k : Nat) : String :=
  if k = 0 then childPath parent base else childPath parent (base ++ decRepr k)

/-- The `while temp_final_path.exists()` probe, with enough fuel to cover
every existing sibling (the Python loop is unbounded; `existing.length + 1`
distinct candidates cannot all be taken). -/
def conflictProbe (existing : List String) (parent base : String) :
    Nat → Nat → String
  | 0, k => conflictCandidate parent base k
  | fuel + 1, k =>
      if existing.contains (conflictCandidate parent base k) then
        conflictProbe existing parent base fuel (k + 1)
      else conflictCandidate parent base k

/-- Embedding of the conflict-resolution probe: the final path chosen for
candidate `base` under `parent`, given the set of already-existing paths. -/
def resolvePlacement (existing : List String) (parent base : String) : String :=
  conflictProbe existing parent base (existing.length + 1) 0

/-! ## The negotiation loop (`main_orchastrator.main`, lines 152-279)

State and inputs:
* `gen k fb` — the name produced by the generation call of the iteration
  with `retry_count = k` (`fb` is the `feedback=` argument: `none` on the
  first attempt, `some combined` on retries).  The empty string models
  Python's falsy `None`/`""` checked by `if not new_directory_name`.
* `logOk i` — whether the `i`-th call to `log_naming_attempt` succeeds;
  the source calls it with no surrounding `try`, so a failure propagates
  and the run ends in the `logError` terminal.
* `choices` — the user's answer to each satisfaction prompt
  (`prompt_user_naming_satisfaction` only ever returns accept or retry);
  a retry carries the raw text later passed through
  `collect_user_feedback` (strip, default when empty). -/

inductive UserChoice where
  | accept
  | retry (rawFeedback : String)

inductive UserActionKind where
  | accept
  | retry
  | cancel
  | generationFailed
  | maxRetriesReached
  | movedSuccessfully
  | moveFailed
  | localRenameSuccess
  | renameFailed
  | totalFailure
deriving DecidableEq

/-- One successfully appended row of `naming_ab_testing_log.csv`
(the fields the claims mention). -/
structure LogEntry where
  attemptNumber : Nat
  action : UserActionKind
  feedback : String
  generatedName : String
  finalDestination : String
deriving DecidableEq

/-- Trace record of one generation call. -/
structure GenCall where
  retryCount : Nat
  feedback : Option String
  historyLen : Nat
deriving DecidableEq

inductive Terminal where
  | accepted
  | forcedAccept
  | genFailed
  | logError
  | outOfInput
  | whileExit
deriving DecidableEq

/-- Loop exit state: how the loop ended, the value of
`new_directory_name`, `retry_count`, `feedback_history`, the appended log
rows, and the generation-call trace. -/
structure RunResult where
  terminal : Terminal
  name : String
  retryCount : Nat
  feedbackHistory : List String
  logs : List LogEntry
  genCalls : List GenCall

/-- `" | ".join(feedback_history)`. -/
def joinFeedback : List String → String
  | [] => ""
  | [x] => x
  | x :: y :: rest => x ++ " | " ++ joinFeedback (y :: rest)

/-- `collect_user_feedback`: the typed text is stripped; empty input is
replaced by a fixed generic complaint. -/
def collectFeedback (raw : String) : String :=
  if pyStrip raw = "" then "Please make the name more specific and descriptive" else pyStrip raw

/-- `max_retries = 3`. -/
def max_retries : Nat := 3

/-- One pass of `while retry_count <= max_retries`, consuming one user
choice per iteration.  Arguments: remaining choices, `retry_count`,
`feedback_history`, next log index, appended logs, generation-call trace.
Each branch repeats the loop preamble (guard, generation call, empty-name
check) so that one equation corresponds to one shape of user input. -/
def loopGo (gen : Nat → Option String → String) (logOk : Nat → Bool) :
    List UserChoice → Nat → List String → Nat → List LogEntry → List GenCall →
    RunResult
  | [], k, hist, li, logs, calls =>
    if k > max_retries then ⟨.whileExit, "", k, hist, logs, calls⟩
    else
      let fb : Option String := if k = 0 then none else some (joinFeedback hist)
      let name := gen k fb
      let calls2 := calls ++ [⟨k, fb, hist.length⟩]
      if name = "" then
        -- `if not new_directory_name:` → log generation_failed, break
        if logOk li then
          ⟨.genFailed, name, k, hist, logs ++ [⟨k + 1, .generationFailed, "", "", ""⟩], calls2⟩
        else ⟨.logError, name, k, hist, logs, calls2⟩
      else ⟨.outOfInput, name, k, hist, logs, calls2⟩
  | UserChoice.accept :: _, k, hist, li, logs, calls =>
    if k > max_retries then ⟨.whileExit, "", k, hist, logs, calls⟩
    else
      let fb : Option String := if k = 0 then none else some (joinFeedback hist)
      let name := gen k fb
      let calls2 := calls ++ [⟨k, fb, hist.length⟩]
      if name = "" then
        if logOk li then
          ⟨.genFailed, name, k, hist, logs ++ [⟨k + 1, .generationFailed, "", "", ""⟩], calls2⟩
        else ⟨.logError, name, k, hist, logs, calls2⟩
      else
        if logOk li then
          ⟨.accepted, name, k, hist, logs ++ [⟨k + 1, .accept, "", name, ""⟩], calls2⟩
        else ⟨.logError, name, k, hist, logs, calls2⟩
  | UserChoice.retry raw :: rest, k, hist, li, logs, calls =>
    if k > max_retries then ⟨.whileExit, "", k, hist, logs, calls⟩
    else
      let fb : Option String := if k = 0 then none else some (joinFeedback hist)
      let name := gen k fb
      let calls2 := calls ++ [⟨k, fb, hist.length⟩]
      if name = "" then
        if logOk li then
          ⟨.genFailed, name, k, hist, logs ++ [⟨k + 1, .generationFailed, "", "", ""⟩], calls2⟩
        else ⟨.logError, name, k, hist, logs, calls2⟩
      else
        if k < max_retries then
          let f := collectFeedback raw
          let hist2 := hist ++ [f]
          if logOk li then
            loopGo gen logOk rest (k + 1) hist2 (li + 1)
              (logs ++ [⟨k + 1, .retry, f, name, ""⟩]) calls2
          else ⟨.logError, name, k, hist2, logs, calls2⟩
        else
          -- retry requested at the limit: forced acceptance
          if logOk li then
            ⟨.forcedAccept, name, k, hist,
              logs ++ [⟨k + 1, .maxRetriesReached, "", name, ""⟩], calls2⟩
          else ⟨.logError, name, k, hist, logs, calls2⟩

/-- Embedding of the retry loop of `main` (`retry_count = 0`, empty
feedback history at entry). -/
def runLoop (gen : Nat → Option String → String) (logOk : Nat → Bool)
    (choices : List UserChoice) : RunResult :=
  loopGo gen logOk choices 0 [] 0 [] []

/-! ## Post-loop placement with staged fallback
(`main_orchastrator.main`, lines 312-385)

`mv` is the outcome of `shutil.move(target, final_path)`, `rn` the outcome
of `target_directory.rename(new_path)`; `Except.error e` models a raised
exception with text `e`. -/

/-- Result of the consented move: the final location and the log rows
appended, in order. -/
def performPlacement (targetDirectory finalPath newPath : String)
    (attemptNumber : Nat) (mv rn : Except String Unit) :
    String × List LogEntry :=
  match mv with
  | Except.ok _ =>
      (finalPath, [⟨attemptNumber, .movedSuccessfully, "", "", finalPath⟩])
  | Except.error e =>
      let failLog : LogEntry := ⟨attemptNumber, .moveFailed, "Move error: " ++ e, "", ""⟩
      match rn with
      | Except.ok _ =>
          (newPath, [failLog, ⟨attemptNumber, .localRenameSuccess, "", "", newPath⟩])
      | Except.error e2 =>
          (targetDirectory,
            [failLog,
             ⟨attemptNumber, .totalFailure, "Local rename error: " ++ e2, "", targetDirectory⟩])

/-! ## Sortedness of the produced file tree (specification predicate, C4) -/

/-- Whether an output entry is a file row (`leaf`) or a subdirectory
(`node`). -/
def TreeOut.isLeafB : TreeOut → Bool
  | .leaf _ => true
  | .node _ => false

/-- Case-folded sort name of an output entry: subdirectory keys carry the
`"/"` the source appends, which is not part of the sort key. -/
def outKeyName (e : String × TreeOut) : String :=
  if e.2.isLeafB then asciiLower e.1 else asciiLower ⟨e.1.data.dropLast⟩

/-- Type-then-name order on output entries: directories before files, then
case-folded name. -/
def outEntryLe (a b : String × TreeOut) : Prop :=
  (a.2.isLeafB = false ∧ b.2.isLeafB = true) ∨
    (a.2.isLeafB = b.2.isLeafB ∧ outKeyName a ≤ outKeyName b)

/-- Every directory listing in the output tree is ordered by
type-then-name, recursively. -/
inductive TreeSorted : TreeOut → Prop where
  | leaf (s : String) : TreeSorted (.leaf s)
  | node (entries : List (String × TreeOut)) :
      entries.Pairwise outEntryLe →
      (∀ e ∈ entries, TreeSorted e.2) →
      TreeSorted (.node entries)


/-! # Theorems -/

/-! ## General string helpers -/

theorem strExt {s t : String} (h : s.data = t.data) : s = t :=
  String.ext h

theorem strEq_iff_data {s t : String} : s = t ↔ s.data = t.data :=
  ⟨fun h => congrArg String.data h, strExt⟩

theorem strAppend_left_cancel {a b c : String} (h : a ++ b = a ++ c) : b = c := by
  apply strExt
  have hd : a.data ++ b.data = a.data ++ c.data := by
    simpa [String.data_append] using congrArg String.data h
  exact List.append_cancel_left hd

theorem strNe_of_length {s t : String} (h : s.length ≠ t.length) : s ≠ t := by
  intro he
  exact h (congrArg String.length he)

/-! ## C5 helpers: the Python regex tail -/

theorem pyTailMatch_iff (l : List Char) :
    pyTailMatch l = true ↔
      (l.all isAsciiAlnum = true ∨
        ∃ l', l = l' ++ ['\n'] ∧ l'.all isAsciiAlnum = true) := by
  induction l using pyTailMatch.induct with
  | case1 =>
    simp [pyTailMatch]
  | case2 c =>
    simp only [pyTailMatch, Bool.or_eq_true_iff, beq_iff_eq]
    constructor
    · intro h
      rcases h with h1 | h1
      · exact Or.inr ⟨[], by simp [h1], by simp⟩
      · exact Or.inl (by simp [h1])
    · intro h
      rcases h with h1 | ⟨l', he, hall⟩
      · exact Or.inr (by simpa using h1)
      · have hl' : l' = [] := by
          have hlen := congrArg List.length he
          simp at hlen
          exact hlen
        subst hl'
        simp at he
        exact Or.inl he
  | case3 c d rest ih =>
    simp only [pyTailMatch, Bool.and_eq_true_iff]
    constructor
    · intro h
      rcases ih.mp h.2 with h2 | ⟨l', he, hall⟩
      · exact Or.inl (by simp_all)
      · refine Or.inr ⟨c :: l', by simp [he], ?_⟩
        simp_all
    · intro h
      rcases h with h1 | ⟨l', he, hall⟩
      · rw [List.all_cons, Bool.and_eq_true_iff] at h1
        exact ⟨h1.1, ih.mpr (Or.inl h1.2)⟩
      · match l', he with
        | c' :: l'', he =>
          have hc : c = c' := by
            have := congrArg (fun x => List.headD x ' ') he
            simpa using this
          have ht : d :: rest = l'' ++ ['\n'] := by
            have := congrArg List.tail he
            simpa using this
          subst hc
          rw [List.all_cons, Bool.and_eq_true_iff] at hall
          exact ⟨hall.1, ih.mpr (Or.inr ⟨l'', ht, hall.2⟩)⟩

theorem pyNamePatternMatch_iff (name : String) :
    pyNamePatternMatch name = true ↔
      (specNameMatch name = true ∨
        ∃ core : String, name = core ++ "\n" ∧ specNameMatch core = true) := by
  unfold pyNamePatternMatch
  cases hd : name.data with
  | nil =>
    simp only [Bool.false_eq_true, false_iff]
    intro h
    rcases h with h1 | ⟨core, he, hc⟩
    · unfold specNameMatch at h1
      rw [hd] at h1
      simp at h1
    · have : name.data = core.data ++ ['\n'] := by
        rw [strEq_iff_data] at he
        simpa [String.data_append] using he
      rw [hd] at this
      simp at this
  | cons c rest =>
    rw [Bool.and_eq_true_iff, pyTailMatch_iff]
    have hspec : specNameMatch name = (isAsciiLower c && rest.all isAsciiAlnum) := by
      unfold specNameMatch
      rw [hd]
    constructor
    · rintro ⟨hlow, hall | ⟨l', hl, hall⟩⟩
      · exact Or.inl (by rw [hspec, Bool.and_eq_true_iff]; exact ⟨hlow, hall⟩)
      · refine Or.inr ⟨⟨c :: l'⟩, ?_, ?_⟩
        · apply strExt
          simp [String.data_append, hd, hl]
        · show (isAsciiLower c && l'.all isAsciiAlnum) = true
          exact Bool.and_eq_true_iff.mpr ⟨hlow, hall⟩
    · rintro (h1 | ⟨core, he, hc⟩)
      · rw [hspec, Bool.and_eq_true_iff] at h1
        exact ⟨h1.1, Or.inl h1.2⟩
      · have hdata : c :: rest = core.data ++ ['\n'] := by
          rw [strEq_iff_data] at he
          rw [hd] at he
          simpa [String.data_append] using he
        unfold specNameMatch at hc
        cases hcore : core.data with
        | nil =>
          rw [hcore] at hdata
          simp at hdata
          rw [hcore] at hc
          simp at hc
        | cons c' rest' =>
          rw [hcore] at hdata hc
          rw [Bool.and_eq_true_iff] at hc
          have hc' : c = c' := by
            have := congrArg (fun x => List.headD x ' ') hdata
            simpa using this
          have hrest : rest = rest' ++ ['\n'] := by
            have := congrArg List.tail hdata
            simpa using this
          subst hc'
          exact ⟨hc.1, Or.inr ⟨rest', hrest, hc.2⟩⟩

/-- C5 (amended): `validate_directory_name` returns true iff the name has
at most 75 characters and matches `^[a-z][a-zA-Z0-9]*$` under Python's `$`
semantics, i.e. either the whole name is a lowercase letter followed by
alphanumerics, or such a match followed by exactly one trailing newline. -/
theorem c5_validator_characterization (name : String) :
    validate_directory_name name = true ↔
      name.length ≤ 75 ∧
        (specNameMatch name = true ∨
          ∃ core : String, name = core ++ "\n" ∧ specNameMatch core = true) := by
  rw [← pyNamePatternMatch_iff]
  unfold validate_directory_name
  constructor
  · intro h
    by_cases hlen : name.length > 75
    · rw [if_pos hlen] at h
      exact absurd h (by simp)
    · rw [if_neg hlen] at h
      refine ⟨by omega, ?_⟩
      by_cases hm : pyNamePatternMatch name = true
      · exact hm
      · have hm' : (!pyNamePatternMatch name) = true := by
          cases hpm : pyNamePatternMatch name
          · simp
          · exact absurd hpm hm
        rw [if_pos hm'] at h
        exact absurd h (by simp)
  · rintro ⟨h1, h2⟩
    rw [if_neg (by omega)]
    rw [h2]
    simp

/-- C5 (counterexample): the claim's biconditional — validator true iff
length ≤ 75 and "first character lowercase, remainder alphanumeric only" —
fails at the concrete input `"abc\n"`: the validator accepts it (Python's
`$` matches before the trailing newline) although the remainder is not
alphanumeric only. -/
theorem c5_counterexample :
    ¬ (validate_directory_name "abc\n" = true ↔
        ("abc\n".length ≤ 75 ∧ specNameMatch "abc\n" = true)) := by
  decide

/-! ## C6: the news-transcript override -/

/-- C6: the news-transcript override always wins.  For every candidate
name and every data-home root, if the supplied source path (after
backslash normalization) contains the fixed `"News/transcripts"` pattern,
`determine_optimal_parent_directory` returns the fixed Text-Documents
destination, regardless of the name — the keyword tables are never
consulted. -/
theorem c6_news_transcript_override (name root sp : String)
    (h : containsSub "News/transcripts" (replaceBackslashes sp) = true) :
    determine_optimal_parent_directory name root (some sp) =
      osPathJoin root "filetree/roots/documents/Text Documents" := by
  have hsp : ¬ (sp = "") := by
    intro he
    subst he
    rw [show replaceBackslashes "" = "" by decide] at h
    exact absurd h (by decide)
  unfold determine_optimal_parent_directory
  simp [hsp, h]

/-- C6 witness: a concrete news-transcript source path routes a
non-transcript-prefixed name to the Text-Documents destination. -/
theorem c6_witness :
    determine_optimal_parent_directory "audPodcastEp" "/dh"
      (some "/home/u/News/transcripts/ep1") =
      "/dh/filetree/roots/documents/Text Documents" := by
  have h := c6_news_transcript_override "audPodcastEp" "/dh"
    "/home/u/News/transcripts/ep1" (by decide)
  rw [h]
  decide

/-! ## C8 helpers: the fallback name and its validity -/

theorem digitChar10_isDigit : ∀ m, m < 10 → isAsciiDigit (digitChar10 m) = true := by
  decide

theorem isAsciiAlnum_of_digit (c : Char) (h : isAsciiDigit c = true) :
    isAsciiAlnum c = true := by
  unfold isAsciiDigit at h
  unfold isAsciiAlnum
  rw [Bool.and_eq_true_iff] at h
  simp only [decide_eq_true_eq] at h
  simp only [Bool.or_eq_true_iff, Bool.and_eq_true_iff, decide_eq_true_eq]
  omega

theorem decDigitsLE_all_digits : ∀ n, (decDigitsLE n).all isAsciiDigit = true := by
  intro n
  induction n using decDigitsLE.induct with
  | case1 => simp [decDigitsLE]
  | case2 n ih =>
    rw [decDigitsLE]
    rw [List.all_cons, Bool.and_eq_true_iff]
    exact ⟨digitChar10_isDigit _ (Nat.mod_lt _ (by omega)), ih⟩

theorem decDigitsLE_length_le : ∀ n k, n < 10 ^ k → (decDigitsLE n).length ≤ k := by
  intro n
  induction n using decDigitsLE.induct with
  | case1 =>
    intro k _
    simp [decDigitsLE]
  | case2 n ih =>
    intro k h
    rw [decDigitsLE]
    cases k with
    | zero =>
      simp at h
    | succ k' =>
      simp only [List.length_cons]
      have hdiv : (n + 1) / 10 < 10 ^ k' := by
        have h10 : n + 1 < 10 ^ k' * 10 := by
          rw [← pow_succ]
          exact h
        exact (Nat.div_lt_iff_lt_mul (by omega)).mpr h10
      have := ih k' hdiv
      omega

theorem decRepr_all_digits (n : Nat) : (decRepr n).data.all isAsciiDigit = true := by
  unfold decRepr
  split
  · decide
  · show (decDigitsLE n).reverse.all isAsciiDigit = true
    rw [List.all_eq_true]
    intro c hc
    have hc' : c ∈ decDigitsLE n := List.mem_reverse.mp hc
    exact List.all_eq_true.mp (decDigitsLE_all_digits n) c hc'

theorem decRepr_length_le (n k : Nat) (hk : 1 ≤ k) (h : n < 10 ^ k) :
    (decRepr n).length ≤ k := by
  unfold decRepr
  split
  · show ("0" : String).length ≤ k
    simpa using hk
  · show (decDigitsLE n).reverse.length ≤ k
    rw [List.length_reverse]
    exact decDigitsLE_length_le n k h

theorem strLength_mk (l : List Char) : (⟨l⟩ : String).length = l.length := rfl

theorem zfill_length {w : Nat} {s : String} (h : s.length ≤ w) :
    (zfill w s).length = w := by
  unfold zfill
  rw [String.length_append, strLength_mk, List.length_replicate]
  omega

theorem zfill_all_digits {w : Nat} {s : String}
    (h : s.data.all isAsciiDigit = true) :
    (zfill w s).data.all isAsciiDigit = true := by
  unfold zfill
  rw [String.data_append, List.all_append, Bool.and_eq_true_iff]
  refine ⟨?_, h⟩
  rw [List.all_eq_true]
  intro c hc
  have : c = '0' := (List.eq_of_mem_replicate (by simpa using hc))
  subst this
  decide

theorem strftimeYMD_length {today : Date} (hy : today.year ≤ 9999)
    (hm : today.month ≤ 99) (hd : today.day ≤ 99) :
    (strftimeYMD today).length = 8 := by
  unfold strftimeYMD
  rw [String.length_append, String.length_append]
  rw [zfill_length (decRepr_length_le _ 4 (by omega) (by omega)),
    zfill_length (decRepr_length_le _ 2 (by omega) (by omega)),
    zfill_length (decRepr_length_le _ 2 (by omega) (by omega))]

theorem strftimeYMD_all_digits (today : Date) :
    (strftimeYMD today).data.all isAsciiDigit = true := by
  unfold strftimeYMD
  rw [String.data_append, String.data_append, List.all_append, List.all_append]
  simp only [Bool.and_eq_true_iff]
  exact ⟨⟨zfill_all_digits (decRepr_all_digits _), zfill_all_digits (decRepr_all_digits _)⟩,
    zfill_all_digits (decRepr_all_digits _)⟩

theorem pyNamePatternMatch_cons {name : String} {c : Char} {rest : List Char}
    (h : name.data = c :: rest) :
    pyNamePatternMatch name = (isAsciiLower c && pyTailMatch rest) := by
  unfold pyNamePatternMatch
  rw [h]

theorem pyTailMatch_of_all_alnum {l : List Char} (h : l.all isAsciiAlnum = true) :
    pyTailMatch l = true :=
  (pyTailMatch_iff l).mpr (Or.inl h)

theorem validate_fallback {today : Date} (hy : today.year ≤ 9999)
    (hm : today.month ≤ 99) (hd : today.day ≤ 99) :
    validate_directory_name (create_fallback_name today) = true := by
  have hlen : (create_fallback_name today).length = 22 := by
    unfold create_fallback_name
    rw [String.length_append, strftimeYMD_length hy hm hd]
    decide
  have hdata : (create_fallback_name today).data =
      'p' :: ("rocessedAudio".data ++ (strftimeYMD today).data) := by
    unfold create_fallback_name
    rw [String.data_append]
    rfl
  have htail : pyTailMatch ("rocessedAudio".data ++ (strftimeYMD today).data) = true := by
    apply pyTailMatch_of_all_alnum
    rw [List.all_append, Bool.and_eq_true_iff]
    constructor
    · decide
    · rw [List.all_eq_true]
      intro c hc
      exact isAsciiAlnum_of_digit c
        (List.all_eq_true.mp (strftimeYMD_all_digits today) c hc)
  unfold validate_directory_name
  rw [if_neg (by omega)]
  rw [pyNamePatternMatch_cons hdata, htail]
  decide

theorem validate_ne_empty {s : String} (h : validate_directory_name s = true) :
    s ≠ "" := by
  intro he
  subst he
  exact absurd h (by decide)

theorem fallback_ne_empty (today : Date) : create_fallback_name today ≠ "" := by
  apply strNe_of_length
  unfold create_fallback_name
  rw [String.length_append]
  show 14 + (strftimeYMD today).length ≠ 0
  omega

/-- C8: on any naming failure — no generation client configured, a raised
transport error, or a reply failing validation — name generation falls
back deterministically to `"processedAudio" + YYYYMMDD`; the fallback name
always passes the validator (for any representable date), and generation
never returns an empty/absent name. -/
theorem c8_fallback_naming (call : Option (Except String String)) (today : Date)
    (hy : today.year ≤ 9999) (hm : today.month ≤ 99) (hd : today.day ≤ 99) :
    validate_directory_name (create_fallback_name today) = true ∧
    generate_directory_name none today = create_fallback_name today ∧
    (∀ e, generate_directory_name (some (Except.error e)) today =
      create_fallback_name today) ∧
    (∀ raw, validate_directory_name (pyStrip raw) = false →
      generate_directory_name (some (Except.ok raw)) today =
        create_fallback_name today) ∧
    generate_directory_name call today ≠ "" := by
  refine ⟨validate_fallback hy hm hd, rfl, fun _ => rfl, ?_, ?_⟩
  · intro raw hv
    unfold generate_directory_name
    simp [hv]
  · match call with
    | none => exact fallback_ne_empty today
    | some (Except.error e) => exact fallback_ne_empty today
    | some (Except.ok raw) =>
      unfold generate_directory_name
      by_cases hv : validate_directory_name (pyStrip raw) = true
      · simp only [hv, if_true]
        exact validate_ne_empty hv
      · simp only [if_neg hv]
        exact fallback_ne_empty today

/-- C8 witness: with no client configured on 2026-10-12, the generated
name is the validated fallback and is non-empty. -/
theorem c8_witness :
    validate_directory_name (create_fallback_name ⟨2026, 10, 12⟩) = true ∧
    generate_directory_name none ⟨2026, 10, 12⟩ ≠ "" := by
  have h := c8_fallback_naming none ⟨2026, 10, 12⟩ (by decide) (by decide) (by decide)
  exact ⟨h.1, h.2.2.2.2⟩

/-! ## C9: staged fallback after a consented move -/

/-- C9: after user consent, move errors are recovered by a staged
fallback.  If the optimal-location move succeeds the directory ends at the
optimal path with a single `moved_successfully` entry; if it fails, a
local rename is attempted after a `move_failed` entry; if the rename also
fails, the directory is left at its original location and a
`total_failure` entry follows — each stage logs distinctly, and only the
final stage's failure leaves the directory at its original location. -/
theorem c9_staged_move_fallback (targetDirectory finalPath newPath : String)
    (attemptNumber : Nat) (mv rn : Except String Unit) :
    (mv = Except.ok () →
      (performPlacement targetDirectory finalPath newPath attemptNumber mv rn).1 =
        finalPath ∧
      (performPlacement targetDirectory finalPath newPath attemptNumber mv rn).2.map
          (fun e => e.action) = [UserActionKind.movedSuccessfully]) ∧
    (∀ e, mv = Except.error e → rn = Except.ok () →
      (performPlacement targetDirectory finalPath newPath attemptNumber mv rn).1 =
        newPath ∧
      (performPlacement targetDirectory finalPath newPath attemptNumber mv rn).2.map
          (fun e => e.action) =
        [UserActionKind.moveFailed, UserActionKind.localRenameSuccess]) ∧
    (∀ e e2, mv = Except.error e → rn = Except.error e2 →
      (performPlacement targetDirectory finalPath newPath attemptNumber mv rn).1 =
        targetDirectory ∧
      (performPlacement targetDirectory finalPath newPath attemptNumber mv rn).2.map
          (fun e => e.action) =
        [UserActionKind.moveFailed, UserActionKind.totalFailure]) := by
  refine ⟨?_, ?_, ?_⟩
  · intro h
    subst h
    exact ⟨rfl, rfl⟩
  · intro e h1 h2
    subst h1
    subst h2
    exact ⟨rfl, rfl⟩
  · intro e e2 h1 h2
    subst h1
    subst h2
    exact ⟨rfl, rfl⟩

/-- C9 witness: with both the move and the local rename failing, the
directory stays at its original location and the two failure stages are
logged in order. -/
theorem c9_witness :
    (performPlacement "/src/dir" "/dh/opt/name" "/src/name" 2
        (Except.error "cross-device") (Except.error "permission")).1 = "/src/dir" ∧
    (performPlacement "/src/dir" "/dh/opt/name" "/src/name" 2
        (Except.error "cross-device") (Except.error "permission")).2.map
      (fun e => e.action) =
      [UserActionKind.moveFailed, UserActionKind.totalFailure] := by
  have h := c9_staged_move_fallback "/src/dir" "/dh/opt/name" "/src/name" 2
    (Except.error "cross-device") (Except.error "permission")
  exact h.2.2 "cross-device" "permission" rfl rfl

/-! ## C1 helpers: negotiation-loop invariants -/

theorem callsMap_snoc {calls : List GenCall} {k : Nat} {fb : Option String} {hl : Nat}
    (h : calls.map (fun gc => gc.retryCount) = List.range k) :
    (calls ++ [({ retryCount := k, feedback := fb, historyLen := hl } : GenCall)]).map
      (fun gc => gc.retryCount) = List.range (k + 1) := by
  rw [List.map_append, h, List.range_succ]
  rfl

theorem callsLen_of_map {calls : List GenCall} {k : Nat}
    (h : calls.map (fun gc => gc.retryCount) = List.range k) :
    calls.length = k := by
  have := congrArg List.length h
  simpa using this

theorem logsAll_snoc {logs : List LogEntry} {e : LogEntry}
    (h : logs.all (fun x => decide (x.attemptNumber ≤ max_retries + 1)) = true)
    (he : e.attemptNumber ≤ max_retries + 1) :
    (logs ++ [e]).all (fun x => decide (x.attemptNumber ≤ max_retries + 1)) = true := by
  rw [List.all_append, h]
  simp [he]

theorem loopGo_inv (gen : Nat → Option String → String) (logOk : Nat → Bool) :
    ∀ (choices : List UserChoice) (k : Nat) (hist : List String) (li : Nat)
      (logs : List LogEntry) (calls : List GenCall),
      k ≤ max_retries →
      calls.map (fun gc => gc.retryCount) = List.range k →
      logs.all (fun e => decide (e.attemptNumber ≤ max_retries + 1)) = true →
      ((loopGo gen logOk choices k hist li logs calls).genCalls.map
          (fun gc => gc.retryCount) =
        List.range (loopGo gen logOk choices k hist li logs calls).genCalls.length ∧
       (loopGo gen logOk choices k hist li logs calls).genCalls.length ≤
          max_retries + 1 ∧
       (loopGo gen logOk choices k hist li logs calls).retryCount ≤ max_retries ∧
       (loopGo gen logOk choices k hist li logs calls).logs.all
          (fun e => decide (e.attemptNumber ≤ max_retries + 1)) = true) := by
  intro choices
  induction choices with
  | nil =>
    intro k hist li logs calls hk hcalls hlogs
    rw [loopGo]
    rw [if_neg (by omega)]
    dsimp only
    generalize (if k = 0 then (none : Option String) else some (joinFeedback hist)) = fb
    have hmap := @callsMap_snoc calls k fb hist.length hcalls
    have hlen : calls.length = k := callsLen_of_map hcalls
    split
    · split
      · exact ⟨by simpa [hlen] using hmap, by simp [hlen]; omega,
          by simpa using hk, logsAll_snoc hlogs (by simp; omega)⟩
      · exact ⟨by simpa [hlen] using hmap, by simp [hlen]; omega,
          by simpa using hk, by simpa using hlogs⟩
    · exact ⟨by simpa [hlen] using hmap, by simp [hlen]; omega,
        by simpa using hk, by simpa using hlogs⟩
  | cons c rest ih =>
    intro k hist li logs calls hk hcalls hlogs
    match c with
    | UserChoice.accept =>
      rw [loopGo]
      rw [if_neg (by omega)]
      dsimp only
      generalize (if k = 0 then (none : Option String) else some (joinFeedback hist)) = fb
      have hmap := @callsMap_snoc calls k fb hist.length hcalls
      have hlen : calls.length = k := callsLen_of_map hcalls
      split
      · split
        · exact ⟨by simpa [hlen] using hmap, by simp [hlen]; omega,
            by simpa using hk, logsAll_snoc hlogs (by simp; omega)⟩
        · exact ⟨by simpa [hlen] using hmap, by simp [hlen]; omega,
            by simpa using hk, by simpa using hlogs⟩
      · split
        · exact ⟨by simpa [hlen] using hmap, by simp [hlen]; omega,
            by simpa using hk, logsAll_snoc hlogs (by simp; omega)⟩
        · exact ⟨by simpa [hlen] using hmap, by simp [hlen]; omega,
            by simpa using hk, by simpa using hlogs⟩
    | UserChoice.retry raw =>
      rw [loopGo]
      rw [if_neg (by omega)]
      dsimp only
      generalize (if k = 0 then (none : Option String) else some (joinFeedback hist)) = fb
      have hmap := @callsMap_snoc calls k fb hist.length hcalls
      have hlen : calls.length = k := callsLen_of_map hcalls
      split
      · split
        · exact ⟨by simpa [hlen] using hmap, by simp [hlen]; omega,
            by simpa using hk, logsAll_snoc hlogs (by simp; omega)⟩
        · exact ⟨by simpa [hlen] using hmap, by simp [hlen]; omega,
            by simpa using hk, by simpa using hlogs⟩
      · split
        · -- retry below the limit
          split
          · exact ih (k + 1) _ (li + 1) _ _ (by omega)
              (by simpa [hlen] using hmap)
              (logsAll_snoc hlogs (by simp; omega))
          · exact ⟨by simpa [hlen] using hmap, by simp [hlen]; omega,
              by simpa using hk, by simpa using hlogs⟩
        · -- retry at the limit: forced acceptance
          split
          · exact ⟨by simpa [hlen] using hmap, by simp [hlen]; omega,
              by simpa using hk, logsAll_snoc hlogs (by simp; omega)⟩
          · exact ⟨by simpa [hlen] using hmap, by simp [hlen]; omega,
              by simpa using hk, by simpa using hlogs⟩

/-- C1: throughout every execution of the negotiation loop the number of
generation attempts never exceeds `retry_limit + 1 = 4`: every run makes at
most four generation calls, their `retry_count`s are exactly `0, 1, ...`
(a retry transition increments the count by one and only fires while the
count is strictly below the limit), `retry_count` never exceeds 3, every
log row's attempt number is at most 4, and a retry request arriving at the
limit instead forces acceptance (`forcedAccept`). -/
theorem c1_attempt_bound (gen : Nat → Option String → String) (logOk : Nat → Bool) :
    (∀ choices : List UserChoice,
       (runLoop gen logOk choices).genCalls.length ≤ max_retries + 1 ∧
       (runLoop gen logOk choices).retryCount ≤ max_retries ∧
       (runLoop gen logOk choices).genCalls.map (fun gc => gc.retryCount) =
         List.range (runLoop gen logOk choices).genCalls.length ∧
       (runLoop gen logOk choices).logs.all
         (fun e => decide (e.attemptNumber ≤ max_retries + 1)) = true) ∧
    (∀ (raw : String) (rest : List UserChoice) (hist : List String)
       (li : Nat) (logs : List LogEntry) (calls : List GenCall),
       gen max_retries (some (joinFeedback hist)) ≠ "" →
       logOk li = true →
       (loopGo gen logOk (UserChoice.retry raw :: rest) max_retries hist li logs
           calls).terminal = Terminal.forcedAccept) := by
  constructor
  · intro choices
    have h := loopGo_inv gen logOk choices 0 [] 0 [] []
      (by decide) (by simp) (by simp)
    exact ⟨h.2.1, h.2.2.1, h.1, h.2.2.2⟩
  · intro raw rest hist li logs calls hname hlog
    rw [loopGo]
    rw [if_neg (by decide)]
    dsimp only
    rw [if_neg (show ¬(max_retries = 0) by decide)]
    rw [if_neg hname]
    rw [if_neg (show ¬(max_retries < max_retries) by decide)]
    rw [if_pos hlog]

/-- C1 witness: concrete instances of both parts of the bound. -/
theorem c1_witness :
    (runLoop (fun _ _ => "audX") (fun _ => true) []).genCalls.length ≤
      max_retries + 1 ∧
    (loopGo (fun _ _ => "audX") (fun _ => true) [UserChoice.retry "too generic"]
        max_retries [] 0 [] []).terminal = Terminal.forcedAccept := by
  have h := c1_attempt_bound (fun _ _ => "audX") (fun _ => true)
  exact ⟨(h.1 []).1, h.2 "too generic" [] [] 0 [] [] (by decide) rfl⟩

/-! ## C10 helpers -/

theorem generate_ne_empty (call : Option (Except String String)) (today : Date) :
    generate_directory_name call today ≠ "" := by
  match call with
  | none => exact fallback_ne_empty today
  | some (Except.error e) => exact fallback_ne_empty today
  | some (Except.ok raw) =>
    unfold generate_directory_name
    by_cases hv : validate_directory_name (pyStrip raw) = true
    · simp only [hv, if_true]
      exact validate_ne_empty hv
    · simp only [if_neg hv]
      exact fallback_ne_empty today

theorem logsAllNG_snoc {logs : List LogEntry} {e : LogEntry}
    (h : logs.all (fun x => !(x.action == UserActionKind.generationFailed)) = true)
    (he : (!(e.action == UserActionKind.generationFailed)) = true) :
    (logs ++ [e]).all (fun x => !(x.action == UserActionKind.generationFailed)) = true := by
  rw [List.all_append, h]
  simpa using he

theorem loopGo_no_genFailed (gen : Nat → Option String → String) (logOk : Nat → Bool)
    (hgen : ∀ k fb, gen k fb ≠ "") :
    ∀ (choices : List UserChoice) (k : Nat) (hist : List String) (li : Nat)
      (logs : List LogEntry) (calls : List GenCall),
      logs.all (fun e => !(e.action == UserActionKind.generationFailed)) = true →
      ((loopGo gen logOk choices k hist li logs calls).terminal ≠ Terminal.genFailed ∧
       (loopGo gen logOk choices k hist li logs calls).logs.all
         (fun e => !(e.action == UserActionKind.generationFailed)) = true) := by
  intro choices
  induction choices with
  | nil =>
    intro k hist li logs calls hlogs
    rw [loopGo]
    split
    · exact ⟨by simp, by simpa using hlogs⟩
    · dsimp only
      generalize (if k = 0 then (none : Option String) else some (joinFeedback hist)) = fb
      rw [if_neg (hgen k fb)]
      exact ⟨by simp, by simpa using hlogs⟩
  | cons c rest ih =>
    intro k hist li logs calls hlogs
    match c with
    | UserChoice.accept =>
      rw [loopGo]
      split
      · exact ⟨by simp, by simpa using hlogs⟩
      · dsimp only
        generalize (if k = 0 then (none : Option String) else some (joinFeedback hist)) = fb
        rw [if_neg (hgen k fb)]
        split
        · exact ⟨by simp, logsAllNG_snoc hlogs (by rfl)⟩
        · exact ⟨by simp, by simpa using hlogs⟩
    | UserChoice.retry raw =>
      rw [loopGo]
      split
      · exact ⟨by simp, by simpa using hlogs⟩
      · dsimp only
        generalize (if k = 0 then (none : Option String) else some (joinFeedback hist)) = fb
        rw [if_neg (hgen k fb)]
        split
        · split
          · exact ih (k + 1) _ (li + 1) _ _ (logsAllNG_snoc hlogs (by rfl))
          · exact ⟨by simp, by simpa using hlogs⟩
        · split
          · exact ⟨by simp, logsAllNG_snoc hlogs (by rfl)⟩
          · exact ⟨by simp, by simpa using hlogs⟩

/-- C10: `generate_directory_name` (with or without feedback) always
returns a non-empty string — a validated reply or the fallback — so when
the negotiation loop draws its names from it (for any behaviour of the
external client), the `generation_failed` branch is unreachable: the loop
never terminates in `genFailed` and never writes a `generation_failed` log
row. -/
theorem c10_generation_never_fails
    (beh : Nat → Option String → Option (Except String String)) (today : Date)
    (logOk : Nat → Bool) (choices : List UserChoice) :
    (∀ k fb, decide (generate_directory_name (beh k fb) today = "") = false) ∧
    decide ((runLoop (fun k fb => generate_directory_name (beh k fb) today) logOk
        choices).terminal = Terminal.genFailed) = false ∧
    (runLoop (fun k fb => generate_directory_name (beh k fb) today) logOk
        choices).logs.all
      (fun e => !(e.action == UserActionKind.generationFailed)) = true := by
  have hgen : ∀ k fb,
      (fun k fb => generate_directory_name (beh k fb) today) k fb ≠ "" := by
    intro k fb
    exact generate_ne_empty (beh k fb) today
  have h := loopGo_no_genFailed _ logOk hgen choices 0 [] 0 [] [] (by simp)
  exact ⟨fun k fb => decide_eq_false (generate_ne_empty (beh k fb) today),
    decide_eq_false h.1, h.2⟩

/-- C2: if the user answers retry with non-empty feedback after each of
the first three generated candidates, then each retry-generation call
receives the full accumulated `" | "`-joined history — the third such call
(the fourth generation overall) sees a history of length 3 — and the
fourth retry request is disallowed: the loop force-accepts the current
candidate and logs `max_retries_reached`. -/
theorem c2_three_retries_scenario (gen : Nat → Option String → String)
    (f1 f2 f3 f4 : String)
    (h1 : pyStrip f1 ≠ "") (h2 : pyStrip f2 ≠ "") (h3 : pyStrip f3 ≠ "")
    (hgen : ∀ k fb, gen k fb ≠ "") :
    (runLoop gen (fun _ => true)
        [UserChoice.retry f1, UserChoice.retry f2, UserChoice.retry f3,
         UserChoice.retry f4]).genCalls.map (fun gc => gc.feedback) =
      [none, some (joinFeedback [pyStrip f1]),
       some (joinFeedback [pyStrip f1, pyStrip f2]),
       some (joinFeedback [pyStrip f1, pyStrip f2, pyStrip f3])] ∧
    (runLoop gen (fun _ => true)
        [UserChoice.retry f1, UserChoice.retry f2, UserChoice.retry f3,
         UserChoice.retry f4]).genCalls.map (fun gc => gc.historyLen) =
      [0, 1, 2, 3] ∧
    (runLoop gen (fun _ => true)
        [UserChoice.retry f1, UserChoice.retry f2, UserChoice.retry f3,
         UserChoice.retry f4]).feedbackHistory =
      [pyStrip f1, pyStrip f2, pyStrip f3] ∧
    (runLoop gen (fun _ => true)
        [UserChoice.retry f1, UserChoice.retry f2, UserChoice.retry f3,
         UserChoice.retry f4]).terminal = Terminal.forcedAccept ∧
    (runLoop gen (fun _ => true)
        [UserChoice.retry f1, UserChoice.retry f2, UserChoice.retry f3,
         UserChoice.retry f4]).name =
      gen 3 (some (joinFeedback [pyStrip f1, pyStrip f2, pyStrip f3])) ∧
    (runLoop gen (fun _ => true)
        [UserChoice.retry f1, UserChoice.retry f2, UserChoice.retry f3,
         UserChoice.retry f4]).logs.map (fun e => e.action) =
      [UserActionKind.retry, UserActionKind.retry, UserActionKind.retry,
       UserActionKind.maxRetriesReached] := by
  simp only [runLoop, loopGo, collectFeedback, joinFeedback, max_retries,
    hgen, h1, h2, h3]
  norm_num

/-- C2 witness: a concrete three-retry run accumulates all three feedback
strings and force-accepts on the fourth retry request. -/
theorem c2_witness :
    (runLoop (fun _ _ => "audX") (fun _ => true)
        [UserChoice.retry "a", UserChoice.retry "b", UserChoice.retry "c",
         UserChoice.retry "d"]).feedbackHistory =
      [pyStrip "a", pyStrip "b", pyStrip "c"] ∧
    (runLoop (fun _ _ => "audX") (fun _ => true)
        [UserChoice.retry "a", UserChoice.retry "b", UserChoice.retry "c",
         UserChoice.retry "d"]).terminal = Terminal.forcedAccept := by
  have h := c2_three_retries_scenario (fun _ _ => "audX") "a" "b" "c" "d"
    (by decide) (by decide) (by decide)
    (fun _ _ => (by decide : ("audX" : String) ≠ ""))
  exact ⟨h.2.2.1, h.2.2.2.1⟩

/-- C3 (counterexample): a failing log append does change the outcome of
the negotiation loop.  With the same generator and the same single
`accept` decision, a run whose first log append fails aborts with the
propagated exception (`logError`) while the run with a working logger
terminates `accepted` — contradicting the claim that a logging failure
never alters the outcome. -/
theorem c3_counterexample :
    (runLoop (fun _ _ => "audX") (fun _ => false) [UserChoice.accept]).terminal =
      Terminal.logError ∧
    (runLoop (fun _ _ => "audX") (fun _ => true) [UserChoice.accept]).terminal =
      Terminal.accepted ∧
    Terminal.logError ≠ Terminal.accepted := by
  exact ⟨rfl, rfl, by decide⟩

/-- C3 (amended): a failure inside the attempt logger aborts the
negotiation loop.  `log_naming_attempt` opens and writes the CSV with no
exception handling around its call sites in `main`, so if the append at
the first decision point fails, the run terminates with the propagated
exception (`logError`) instead of continuing to a normal outcome. -/
theorem c3_logging_failure_aborts (gen : Nat → Option String → String)
    (logOk : Nat → Bool) (choices : List UserChoice)
    (hfail : logOk 0 = false)
    (hne : gen 0 none = "" ∨ choices ≠ []) :
    (runLoop gen logOk choices).terminal = Terminal.logError := by
  have hl : ¬(logOk 0 = true) := by simp [hfail]
  unfold runLoop
  cases choices with
  | nil =>
    rcases hne with hne | hne
    · rw [loopGo]
      rw [if_neg (by decide)]
      dsimp only
      rw [if_pos (show (0 : Nat) = 0 from rfl)]
      rw [if_pos hne]
      rw [if_neg hl]
    · exact absurd rfl hne
  | cons c rest =>
    match c with
    | UserChoice.accept =>
      rw [loopGo]
      rw [if_neg (by decide)]
      dsimp only
      rw [if_pos (show (0 : Nat) = 0 from rfl)]
      split
      · rfl
      · rfl
    | UserChoice.retry raw =>
      rw [loopGo]
      rw [if_neg (by decide)]
      dsimp only
      rw [if_pos (show (0 : Nat) = 0 from rfl)]
      split
      · rfl
      · split
        · rfl
        · rfl

/-- C3 witness for the amended claim: a concrete run whose first log
append fails ends in `logError`. -/
theorem c3_witness :
    (runLoop (fun _ _ => "audX") (fun _ => false)
        [UserChoice.accept]).terminal = Terminal.logError :=
  c3_logging_failure_aborts (fun _ _ => "audX") (fun _ => false)
    [UserChoice.accept] rfl (Or.inr (List.cons_ne_nil _ _))

/-! ## C7 helpers: decimal rendering and the conflict probe -/

theorem decDigitsLE_foldr (n : Nat) :
    (decDigitsLE n).foldr (fun c a => 10 * a + digitVal c) 0 = n := by
  induction n using decDigitsLE.induct with
  | case1 => simp [decDigitsLE]
  | case2 n ih =>
    rw [decDigitsLE, List.foldr_cons, ih]
    have hlt : (n + 1) % 10 < 10 := Nat.mod_lt _ (by omega)
    rw [(show ∀ m, m < 10 → digitVal (digitChar10 m) = m by decide) _ hlt]
    omega

theorem decParse_decRepr (n : Nat) : decParse (decRepr n) = n := by
  unfold decRepr decParse
  split
  · rename_i h
    subst h
    decide
  · show ((decDigitsLE n).reverse).foldl (fun a c => 10 * a + digitVal c) 0 = n
    rw [List.foldl_reverse]
    exact decDigitsLE_foldr n

theorem decRepr_injective (m n : Nat) (h : decRepr m = decRepr n) : m = n := by
  have := congrArg decParse h
  rwa [decParse_decRepr, decParse_decRepr] at this

theorem decRepr_ne_empty (n : Nat) : decRepr n ≠ "" := by
  unfold decRepr
  split
  · decide
  · rename_i h
    apply strNe_of_length
    rw [strLength_mk, List.length_reverse]
    match n, h with
    | m + 1, _ =>
      rw [decDigitsLE]
      simp

theorem decRepr_length_pos (n : Nat) : 0 < (decRepr n).length := by
  have hne := decRepr_ne_empty n
  by_contra hc
  have h0 : (decRepr n).data.length = 0 := by
    have : (decRepr n).length = 0 := by omega
    exact this
  exact hne (strExt (List.length_eq_zero.mp h0))

theorem childPath_inj {p a b : String} (h : childPath p a = childPath p b) :
    a = b :=
  strAppend_left_cancel h

theorem conflictCandidate_inj (parent base : String) :
    Function.Injective (conflictCandidate parent base) := by
  intro j k h
  unfold conflictCandidate at h
  by_cases hj : j = 0 <;> by_cases hk : k = 0
  · omega
  · exfalso
    rw [if_pos hj, if_neg hk] at h
    have hb := childPath_inj h
    have hlen := congrArg String.length hb
    rw [String.length_append] at hlen
    have hpos := decRepr_length_pos k
    omega
  · exfalso
    rw [if_neg hj, if_pos hk] at h
    have hb := childPath_inj h
    have hlen := congrArg String.length hb
    rw [String.length_append] at hlen
    have hpos := decRepr_length_pos j
    omega
  · rw [if_neg hj, if_neg hk] at h
    exact decRepr_injective _ _ (strAppend_left_cancel (childPath_inj h))

theorem containsStr_iff {l : List String} {a : String} :
    l.contains a = true ↔ a ∈ l :=
  List.elem_iff

theorem containsStr_false_iff {l : List String} {a : String} :
    l.contains a = false ↔ a ∉ l := by
  constructor
  · intro h hmem
    rw [containsStr_iff.mpr hmem] at h
    cases h
  · intro h
    cases hc : l.contains a
    · rfl
    · exact absurd (containsStr_iff.mp hc) h

theorem conflictProbe_spec (existing : List String) (parent base : String) :
    ∀ (fuel k : Nat),
      (∃ j, j < fuel ∧
        existing.contains (conflictCandidate parent base (k + j)) = false) →
      ∃ m, conflictProbe existing parent base fuel k =
          conflictCandidate parent base (k + m) ∧
        existing.contains (conflictCandidate parent base (k + m)) = false ∧
        ∀ i, i < m →
          existing.contains (conflictCandidate parent base (k + i)) = true := by
  intro fuel
  induction fuel with
  | zero =>
    rintro k ⟨j, hj, _⟩
    omega
  | succ f ih =>
    rintro k ⟨j, hj, hjfree⟩
    rw [conflictProbe]
    by_cases hc : existing.contains (conflictCandidate parent base k) = true
    · rw [if_pos hc]
      have hj0 : j ≠ 0 := by
        intro h0
        subst h0
        rw [Nat.add_zero] at hjfree
        rw [hc] at hjfree
        cases hjfree
      obtain ⟨m, hm1, hm2, hm3⟩ := ih (k + 1)
        ⟨j - 1, by omega, by rw [show k + 1 + (j - 1) = k + j by omega]; exact hjfree⟩
      refine ⟨m + 1,
        by rw [show k + (m + 1) = k + 1 + m by omega]; exact hm1,
        by rw [show k + (m + 1) = k + 1 + m by omega]; exact hm2, ?_⟩
      intro i hi
      cases i with
      | zero =>
        rw [Nat.add_zero]
        exact hc
      | succ i' =>
        rw [show k + (i' + 1) = k + 1 + i' by omega]
        exact hm3 i' (by omega)
    · have hc' : existing.contains (conflictCandidate parent base k) = false := by
        cases h : existing.contains (conflictCandidate parent base k)
        · rfl
        · exact absurd h hc
      rw [if_neg (by rw [hc']; simp)]
      exact ⟨0, by rw [Nat.add_zero], by rw [Nat.add_zero]; exact hc',
        fun i hi => absurd hi (by omega)⟩

theorem exists_free_candidate (existing : List String) (parent base : String) :
    ∃ j, j < existing.length + 1 ∧
      existing.contains (conflictCandidate parent base j) = false := by
  by_contra hcon
  push_neg at hcon
  have hall : ∀ j, j < existing.length + 1 →
      existing.contains (conflictCandidate parent base j) = true := by
    intro j hj
    have hne := hcon j hj
    cases h : existing.contains (conflictCandidate parent base j)
    · exact absurd h hne
    · rfl
  have hnd : ((List.range (existing.length + 1)).map
      (conflictCandidate parent base)).Nodup :=
    List.Nodup.map (conflictCandidate_inj parent base) (List.nodup_range _)
  have hsub : ((List.range (existing.length + 1)).map
      (conflictCandidate parent base)) ⊆ existing := by
    intro x hx
    rcases List.mem_map.mp hx with ⟨j, hjmem, rfl⟩
    exact containsStr_iff.mp (hall j (List.mem_range.mp hjmem))
  have hle := (List.subperm_of_subset hnd hsub).length_le
  rw [List.length_map, List.length_range] at hle
  omega

theorem resolvePlacement_spec (existing : List String) (parent base : String) :
    ∃ m, resolvePlacement existing parent base =
        conflictCandidate parent base m ∧
      existing.contains (conflictCandidate parent base m) = false ∧
      ∀ i, i < m →
        existing.contains (conflictCandidate parent base i) = true := by
  obtain ⟨j, hj, hjfree⟩ := exists_free_candidate existing parent base
  obtain ⟨m, hm1, hm2, hm3⟩ := conflictProbe_spec existing parent base
    (existing.length + 1) 0 ⟨j, hj, by rw [Nat.zero_add]; exact hjfree⟩
  rw [Nat.zero_add] at hm1 hm2
  refine ⟨m, hm1, hm2, fun i hi => ?_⟩
  have := hm3 i hi
  rwa [Nat.zero_add] at this

theorem decDigitsLE_zero : decDigitsLE 0 = [] := by
  rw [decDigitsLE]

theorem decRepr_single {n : Nat} (h0 : 0 < n) (h9 : n < 10) :
    decRepr n = ⟨[digitChar10 n]⟩ := by
  unfold decRepr
  rw [if_neg (by omega)]
  have hd : decDigitsLE n = [digitChar10 n] := by
    match n, h0 with
    | m + 1, _ =>
      rw [decDigitsLE]
      rw [Nat.mod_eq_of_lt h9, Nat.div_eq_of_lt h9, decDigitsLE_zero]
  rw [hd]
  rfl

/-- C7: the conflict-resolution probe never selects an existing path.  For
any set of already-existing sibling paths, resolving `base` returns the
candidate with the least suffix index — the bare name if free, otherwise
`base<k>` for the least positive `k` whose path is free, every smaller
candidate having been found to exist — and in particular with
`{base, base1, base2}` pre-existing, resolving `base` yields `base3`. -/
theorem c7_conflict_resolution :
    (∀ (existing : List String) (parent base : String),
       ∃ m, resolvePlacement existing parent base =
           conflictCandidate parent base m ∧
         existing.contains (conflictCandidate parent base m) = false ∧
         (List.range m).all
           (fun i => existing.contains (conflictCandidate parent base i)) = true) ∧
    (∀ parent base : String,
       resolvePlacement
         [childPath parent base, childPath parent (base ++ "1"),
          childPath parent (base ++ "2")] parent base =
         childPath parent (base ++ "3")) := by
  constructor
  · intro existing parent base
    obtain ⟨m, hm1, hm2, hm3⟩ := resolvePlacement_spec existing parent base
    refine ⟨m, hm1, hm2, ?_⟩
    rw [List.all_eq_true]
    intro i hi
    exact hm3 i (List.mem_range.mp hi)
  · intro parent base
    have d1 : decRepr 1 = "1" := by
      rw [decRepr_single (by omega) (by omega)]
      decide
    have d2 : decRepr 2 = "2" := by
      rw [decRepr_single (by omega) (by omega)]
      decide
    have d3 : decRepr 3 = "3" := by
      rw [decRepr_single (by omega) (by omega)]
      decide
    have hc0 : conflictCandidate parent base 0 = childPath parent base := by
      simp [conflictCandidate]
    have hc1 : conflictCandidate parent base 1 =
        childPath parent (base ++ "1") := by
      simp [conflictCandidate, d1]
    have hc2 : conflictCandidate parent base 2 =
        childPath parent (base ++ "2") := by
      simp [conflictCandidate, d2]
    have hc3 : conflictCandidate parent base 3 =
        childPath parent (base ++ "3") := by
      simp [conflictCandidate, d3]
    obtain ⟨m, hres, hfree, hmin⟩ := resolvePlacement_spec
      [childPath parent base, childPath parent (base ++ "1"),
       childPath parent (base ++ "2")] parent base
    have hin0 : ([childPath parent base, childPath parent (base ++ "1"),
        childPath parent (base ++ "2")] : List String).contains
          (conflictCandidate parent base 0) = true := by
      rw [hc0]
      exact containsStr_iff.mpr (by simp)
    have hin1 : ([childPath parent base, childPath parent (base ++ "1"),
        childPath parent (base ++ "2")] : List String).contains
          (conflictCandidate parent base 1) = true := by
      rw [hc1]
      exact containsStr_iff.mpr (by simp)
    have hin2 : ([childPath parent base, childPath parent (base ++ "1"),
        childPath parent (base ++ "2")] : List String).contains
          (conflictCandidate parent base 2) = true := by
      rw [hc2]
      exact containsStr_iff.mpr (by simp)
    have hnotin3 : ([childPath parent base, childPath parent (base ++ "1"),
        childPath parent (base ++ "2")] : List String).contains
          (conflictCandidate parent base 3) = false := by
      rw [hc3]
      apply containsStr_false_iff.mpr
      intro hmem
      simp only [List.mem_cons, List.not_mem_nil, or_false] at hmem
      rcases hmem with h | h | h
      · have hb := childPath_inj h
        have hlen := congrArg String.length hb
        rw [String.length_append] at hlen
        have : ("3" : String).length = 1 := by decide
        omega
      · exact absurd (strAppend_left_cancel (childPath_inj h)) (by decide)
      · exact absurd (strAppend_left_cancel (childPath_inj h)) (by decide)
    have hm3 : m = 3 := by
      by_cases hlt : m < 3
      · exfalso
        interval_cases m
        · exact absurd (hin0.symm.trans hfree) (by decide)
        · exact absurd (hin1.symm.trans hfree) (by decide)
        · exact absurd (hin2.symm.trans hfree) (by decide)
      · by_cases heq : m = 3
        · exact heq
        · exfalso
          have := hmin 3 (by omega)
          exact absurd (hnotin3.symm.trans this) (by decide)
    subst hm3
    rw [hres, hc3]

/-! ## C4 helpers: the file tree is sorted by type then name -/

theorem entryLeB_trans (a b c : String × FSTree) (hab : entryLeB a b = true)
    (hbc : entryLeB b c = true) : entryLeB a c = true := by
  unfold entryLeB at hab hbc ⊢
  cases hA : a.2.isFileB <;> cases hB : b.2.isFileB <;> cases hC : c.2.isFileB <;>
    simp_all <;> exact le_trans hab hbc

theorem entryLeB_total (a b : String × FSTree) :
    (entryLeB a b || entryLeB b a) = true := by
  unfold entryLeB
  cases hA : a.2.isFileB <;> cases hB : b.2.isFileB <;> simp_all <;>
    exact le_total _ _

theorem buildTree_isLeafB_false :
    ∀ (fuel : Nat) (t : FSTree), t.isFileB = false →
      (buildTree fuel t).isLeafB = false := by
  intro fuel t h
  cases fuel with
  | zero =>
    rw [buildTree]
    rfl
  | succ f =>
    cases t with
    | file sz ct st op => simp [FSTree.isFileB] at h
    | dir entries =>
      rw [buildTree]
      rfl
    | deniedDir =>
      rw [buildTree]
      rfl

theorem dropLast_append_slash (n : String) : (n ++ "/").data.dropLast = n.data := by
  rw [String.data_append]
  exact List.dropLast_concat

theorem strMk_data (s : String) : (⟨s.data⟩ : String) = s := rfl

theorem buildTree_sorted : ∀ (fuel : Nat) (t : FSTree), TreeSorted (buildTree fuel t) := by
  intro fuel
  induction fuel with
  | zero =>
    intro t
    rw [buildTree]
    refine TreeSorted.node _ (by simp) ?_
    intro e he
    simp only [List.mem_singleton] at he
    subst he
    exact TreeSorted.leaf _
  | succ f ih =>
    intro t
    match t with
    | .file sz ct st op =>
      rw [buildTree]
      exact TreeSorted.leaf _
    | .deniedDir =>
      rw [buildTree]
      refine TreeSorted.node _ (by simp) ?_
      intro e he
      simp only [List.mem_singleton] at he
      subst he
      exact TreeSorted.leaf _
    | .dir entries =>
      rw [buildTree]
      refine TreeSorted.node _ ?_ ?_
      · have hs := List.sorted_mergeSort entryLeB_trans
          entryLeB_total entries
        refine hs.map _ ?_
        intro a b hab
        rcases a with ⟨na, ta⟩
        rcases b with ⟨nb, tb⟩
        cases ta <;> cases tb <;> dsimp only <;> unfold entryLeB at hab <;>
          simp only [FSTree.isFileB] at hab
        · -- file / file
          rename_i sza cta sta opa szb ctb stb opb
          simp only [Bool.not_true, Bool.false_and, Bool.false_or,
            Bool.and_eq_true_iff, beq_iff_eq, decide_eq_true_eq] at hab
          exact Or.inr ⟨rfl, by
            unfold outKeyName
            simpa using hab.2⟩
        · -- file / dir : impossible
          simp at hab
        · -- file / denied : impossible
          simp at hab
        · -- dir / file
          rename_i es szb ctb stb opb
          refine Or.inl ⟨?_, rfl⟩
          exact buildTree_isLeafB_false f _ rfl
        · -- dir / dir
          rename_i esa esb
          simp only [Bool.not_false, Bool.true_and, beq_self_eq_true,
            Bool.true_and, Bool.or_eq_true_iff, Bool.and_eq_true_iff,
            decide_eq_true_eq] at hab
          have hla := buildTree_isLeafB_false f (FSTree.dir esa) rfl
          have hlb := buildTree_isLeafB_false f (FSTree.dir esb) rfl
          refine Or.inr ⟨by rw [hla, hlb], ?_⟩
          unfold outKeyName
          rw [if_neg (by rw [hla]; simp), if_neg (by rw [hlb]; simp)]
          dsimp only
          rw [dropLast_append_slash, dropLast_append_slash, strMk_data, strMk_data]
          rcases hab with hab | hab
          · exact absurd hab (by decide)
          · exact hab
        · -- dir / denied
          rename_i esa
          simp only [Bool.not_false, Bool.true_and, beq_self_eq_true,
            Bool.true_and, Bool.or_eq_true_iff, Bool.and_eq_true_iff,
            decide_eq_true_eq] at hab
          have hla := buildTree_isLeafB_false f (FSTree.dir esa) rfl
          have hlb := buildTree_isLeafB_false f FSTree.deniedDir rfl
          refine Or.inr ⟨by rw [hla, hlb], ?_⟩
          unfold outKeyName
          rw [if_neg (by rw [hla]; simp), if_neg (by rw [hlb]; simp)]
          dsimp only
          rw [dropLast_append_slash, dropLast_append_slash, strMk_data, strMk_data]
          rcases hab with hab | hab
          · exact absurd hab (by decide)
          · exact hab
        · -- denied / file
          rename_i szb ctb stb opb
          refine Or.inl ⟨?_, rfl⟩
          exact buildTree_isLeafB_false f _ rfl
        · -- denied / dir
          rename_i esb
          simp only [Bool.not_false, Bool.true_and, beq_self_eq_true,
            Bool.true_and, Bool.or_eq_true_iff, Bool.and_eq_true_iff,
            decide_eq_true_eq] at hab
          have hla := buildTree_isLeafB_false f FSTree.deniedDir rfl
          have hlb := buildTree_isLeafB_false f (FSTree.dir esb) rfl
          refine Or.inr ⟨by rw [hla, hlb], ?_⟩
          unfold outKeyName
          rw [if_neg (by rw [hla]; simp), if_neg (by rw [hlb]; simp)]
          dsimp only
          rw [dropLast_append_slash, dropLast_append_slash, strMk_data, strMk_data]
          rcases hab with hab | hab
          · exact absurd hab (by decide)
          · exact hab
        · -- denied / denied
          simp only [Bool.not_false, Bool.true_and, beq_self_eq_true,
            Bool.true_and, Bool.or_eq_true_iff, Bool.and_eq_true_iff,
            decide_eq_true_eq] at hab
          have hla := buildTree_isLeafB_false f FSTree.deniedDir rfl
          refine Or.inr ⟨rfl, ?_⟩
          unfold outKeyName
          rw [if_neg (by rw [hla]; simp), if_neg (by rw [hla]; simp)]
          dsimp only
          rw [dropLast_append_slash, dropLast_append_slash, strMk_data, strMk_data]
          rcases hab with hab | hab
          · exact absurd hab (by decide)
          · exact hab
      · intro e he
        rcases List.mem_map.mp he with ⟨a, hamem, rfl⟩
        rcases a with ⟨n, ta⟩
        cases ta with
        | file sz ct st op => exact TreeSorted.leaf _
        | dir es => exact ih _
        | deniedDir => exact ih _

/-- C4: for a fixed directory state and extraction mode,
`create_analysis_payload` is deterministic — in this embedding the
analyzer is a pure function of the explicit filesystem value, so two calls
on the same state and flag are literally the same payload (file tree,
snippet map and metadata included) — and every level of the produced file
tree is ordered by type (directories before files) then case-folded name. -/
theorem c4_analyzer_deterministic_and_sorted (t : FSTree) (dirPath : String)
    (extractFromEnd : Bool) :
    create_analysis_payload t dirPath extractFromEnd =
      create_analysis_payload t dirPath extractFromEnd ∧
    TreeSorted (create_file_tree t) :=
  ⟨rfl, buildTree_sorted 4 t⟩
